import Mathlib

/-!
# Verification of the calendar-card event pipeline

Shallow embedding of the event-processing pipeline of the `calendar-card`
repository (`src/events.js`, here `src/unnamed/part_000`, and
`src/defaults.js`) together with proofs about the embedded definitions.

Modelling conventions:

* Instants (moment.js values) are modelled as `Int` minutes since an
  arbitrary epoch midnight.  A calendar day is `1440` minutes.  moment's
  `startOf('day')` is flooring to a multiple of 1440, `add(n, 'days')`
  adds `1440 * n`, `isBefore`/`isAfter` are `<`/`>`, `format('YYYY-MM-DD')`
  is modelled by the day index `t.fdiv 1440` (the format string is injective
  per calendar day, so bucketing by the day index is the same partition),
  `diff(other, 'days')` is the number of whole days truncated toward zero
  (`Int.tdiv`), and `hour()` / `minutes()` read the clock components of the
  minute-of-day.
* JavaScript `undefined`-able string fields are `Option String`;
  JavaScript truthiness of a string (`""` is falsy) and `===` on possibly
  `undefined` strings (`undefined === undefined` is `true`) are embedded
  explicitly below.
* The regular-expression engine is an external capability; it is threaded
  through the pipeline as an abstract `regexTest` function.  No theorem in
  this file depends on its behaviour.
-/

namespace CalendarCard

/-- JavaScript truthiness of a possibly-`undefined` string:
`undefined` and the empty string are falsy. -/
def truthyS : Option String → Bool
  | none => false
  | some s => s ≠ ""

/-- JavaScript `a || b` on possibly-`undefined` strings: returns `a`
when `a` is truthy, otherwise `b`. -/
def jsOr (a b : Option String) : Option String :=
  if truthyS a then a else b

/-- JavaScript strict equality `===` on two possibly-`undefined` strings:
`undefined === undefined` is `true`, `undefined === s` is `false`,
and two strings compare by value. -/
def jsEq : Option String → Option String → Bool
  | none, none => true
  | some a, some b => a == b
  | _, _ => false

/-- A configured calendar entity: the config file allows either a bare
entity-id string or an object `{entity: id, name?: string}`
(see the comment above `config.entities.forEach` in `getAllEvents`). -/
inductive Entity where
  | str (id : String)
  | obj (entity : String) (name : Option String)
deriving DecidableEq, Repr

/-- JavaScript property access `entity.entity`: on a bare string it is
`undefined`, on an object it is the `entity` field. -/
def Entity.entityProp : Entity → Option String
  | .str _ => none
  | .obj e _ => some e

/-- A raw calendar event as handed to `processEvents`: caldav events carry
`uid`, google events carry `id`; `start`/`endTime` are the resolved
start/end instants (`endTime` embeds the JS field `end`); `allDay` records
whether the raw payload gave date-only (all-day) values; `entity` is the
source descriptor stamped on in `getAllEvents` (`event.entity = entity`);
`originCalendar`, `addDays` and `daysLong` are the fields `processEvents`
itself writes. -/
structure RawEvent where
  id : Option String := none
  uid : Option String := none
  start : Int := 0
  endTime : Int := 0
  allDay : Bool := false
  title : Option String := none
  location : Option String := none
  entity : Entity := .str ""
  originCalendar : Option Entity := none
  addDays : Option Int := none
  daysLong : Option Int := none
deriving DecidableEq, Repr

/-- The predicate passed to `self.findIndex` in the uniqueness filter of
`processEvents` (line 117): `(e.id || e.uid) === (event.uid || event.id)`,
with `event` the element under test and `e` the probed element. -/
def dedupProbe (event e : RawEvent) : Bool :=
  jsEq (jsOr e.id e.uid) (jsOr event.uid event.id)

/-- JavaScript `Array.prototype.findIndex`, with the not-found result `-1`
modelled as `none` (it is only ever compared against a nonnegative index,
and `-1 === index` is `false` there). -/
def jsFindIndex {α : Type} (p : α → Bool) : List α → Option Nat
  | [] => none
  | e :: rest => if p e then some 0 else (jsFindIndex p rest).map (· + 1)

/-- The walk of `allEvents.filter((event, index, self) => index ===
self.findIndex(e => (e.id || e.uid) === (event.uid || event.id)))`
(lines 115-118 of `processEvents`): `index` counts the position of the
element under test inside the full array `allEvents`. -/
def uniqueEventsGo (allEvents : List RawEvent) : List RawEvent → Nat → List RawEvent
  | [], _ => []
  | event :: rest, index =>
    if jsFindIndex (fun e => dedupProbe event e) allEvents == some index then
      event :: uniqueEventsGo allEvents rest (index + 1)
    else
      uniqueEventsGo allEvents rest (index + 1)

/-- The uniqueness filter at the head of `processEvents`. -/
def uniqueEvents (allEvents : List RawEvent) : List RawEvent :=
  uniqueEventsGo allEvents allEvents 0

/-- Whether the element under test keeps its slot, given the elements
`prior` that precede it in the scanned array: the first probe match must be
the element itself, i.e. no earlier element matches and the element matches
its own probe. -/
def dedupKeep (prior : List RawEvent) (event : RawEvent) : Bool :=
  dedupProbe event event && prior.all (fun e => ! dedupProbe event e)

/-- Prefix-passing recursion equivalent to `uniqueEvents` (the bridge is
proved below): scan the list keeping each element iff `dedupKeep` holds of
it and the full prefix of already-scanned elements. -/
def dedupGo : List RawEvent → List RawEvent → List RawEvent
  | _, [] => []
  | prior, event :: rest =>
    if dedupKeep prior event then
      event :: dedupGo (prior ++ [event]) rest
    else
      dedupGo (prior ++ [event]) rest

/-! ## Temporal helpers (moment.js operations on minute instants) -/

/-- Minutes per calendar day. -/
def minutesPerDay : Int := 1440

/-- `moment(t).startOf('day')`: floor to the enclosing midnight. -/
def startOfDay (t : Int) : Int := minutesPerDay * (Int.fdiv t minutesPerDay)

/-- The calendar-day index of an instant; `format('YYYY-MM-DD')` buckets
instants by exactly this value (the format string is injective per day). -/
def dayOf (t : Int) : Int := Int.fdiv t minutesPerDay

/-- `moment(t).hour()`: the hour component of the clock time. -/
def hourOf (t : Int) : Int := Int.ediv (Int.emod t minutesPerDay) 60

/-- `moment(t).minutes()`: the minute component of the clock time. -/
def minutesOf (t : Int) : Int := Int.emod (Int.emod t minutesPerDay) 60

/-- `a.diff(b, 'days')`: whole days between the instants, truncated toward
zero as moment does. -/
def diffDays (a b : Int) : Int := Int.tdiv (a - b) minutesPerDay

/-- The card configuration fields `processEvents` and `groupEventsByDay`
read. -/
structure Config where
  entities : List Entity := []
  numberOfDays : Int := 7
  eventsLimit : Int := 99
  hidePastEvents : Bool := false
  startFromToday : Bool := false
  showMultiDay : Bool := false
  ignoreEventsExpression : String := ""
  ignoreEventsByLocationExpression : String := ""
deriving DecidableEq, Repr

/-- Modelled from the spec: the `CalendarEvent` class (file
`src/calendar-event.js`, imported by the pipeline but not part of the
provided sources) wraps the raw record and derives display values from
it.  Accessors are defined below following the spec's Event entity. -/
structure CalendarEvent where
  rawEvent : RawEvent
deriving DecidableEq, Repr

/-- Modelled from the spec: the resolved start instant; for a synthetic
occurrence stamped with `addDays = i` the start is shifted by `i` days. -/
def CalendarEvent.startDateTime (c : CalendarEvent) : Int :=
  c.rawEvent.start + minutesPerDay * (c.rawEvent.addDays.getD 0)

/-- Modelled from the spec: the resolved end instant, shifted by
`addDays` days on synthetic occurrences. -/
def CalendarEvent.endDateTime (c : CalendarEvent) : Int :=
  c.rawEvent.endTime + minutesPerDay * (c.rawEvent.addDays.getD 0)

/-- Modelled from the spec: `isMultiDay` compares the calendar date of
the start against the calendar date of the end. -/
def CalendarEvent.isMultiDay (c : CalendarEvent) : Bool :=
  dayOf c.endDateTime ≠ dayOf c.startDateTime

/-- The event title displayed and matched by the ignore filter. -/
def CalendarEvent.title (c : CalendarEvent) : Option String :=
  c.rawEvent.title

/-- The event location matched by the location ignore filter. -/
def CalendarEvent.location (c : CalendarEvent) : Option String :=
  c.rawEvent.location

/-! ## `groupEventsByDay` -/

/-- A day bucket of the grouped output. -/
structure DayGroup where
  day : Int
  events : List CalendarEvent
deriving DecidableEq, Repr

/-- One step of the grouping reduce in `groupEventsByDay`: look for the
group of the event's day (`findIndex` on `group.day === day`); push the
event onto it when found, otherwise append a fresh group at the end. -/
def addToDay (day : Int) (event : CalendarEvent) : List DayGroup → List DayGroup
  | [] => [{ day := day, events := [event] }]
  | g :: gs =>
    if g.day = day then { g with events := g.events ++ [event] } :: gs
    else g :: addToDay day event gs

/-- The grouping reduce of `groupEventsByDay` (lines 13-24): bucket the
events by the `YYYY-MM-DD` day of their `startDateTime`, in order of first
appearance. -/
def groupByDay (events : List CalendarEvent) : List DayGroup :=
  events.foldl (fun gs e => addToDay (dayOf e.startDateTime) e gs) []

/-- The limit-enforcing map/filter of `groupEventsByDay` (lines 29-41):
walk the groups accumulating the event count; while not maxed out emit
the group and flip `hasMaxedOutEvents` once `eventsLimit < numberOfEvents`;
once maxed out, emit `undefined` (dropped by `.filter(Boolean)`). -/
def limitGo (eventsLimit : Int) : Int → Bool → List DayGroup → List DayGroup
  | _, _, [] => []
  | numberOfEvents, true, _ :: rest => limitGo eventsLimit numberOfEvents true rest
  | numberOfEvents, false, group :: rest =>
    let n := numberOfEvents + group.events.length
    group :: limitGo eventsLimit n (decide (eventsLimit < n)) rest

/-- `groupEventsByDay(events, config)`: group by day, then cut off whole
days once the cumulative event count exceeds `config.eventsLimit`. -/
def groupEventsByDay (events : List CalendarEvent) (config : Config) : List DayGroup :=
  limitGo config.eventsLimit 0 false (groupByDay events)

/-- Cumulative number of events in the first `n` day groups. -/
def cumLen (groups : List DayGroup) (n : Nat) : Int :=
  ((groups.take n).map (fun g => (g.events.length : Int))).sum

/-! ## `processEvents` -/

/-- Line 125 of `processEvents`:
`config.entities.find(entity => entity.entity === caldavEvent.entity.entity)`.
Both sides read the `entity` property, which is `undefined` on a bare
string descriptor, and `===` holds between two `undefined`s. -/
def resolveOriginCalendar (config : Config) (caldavEvent : RawEvent) : Option Entity :=
  config.entities.find? (fun entity => jsEq entity.entityProp caldavEvent.entity.entityProp)

/-- Lines 165-169 of `processEvents`: `daysLong` is the truncated whole-day
difference between end and start plus one, decremented when the end
instant's hour and minutes are both zero (the check inspects only the end
time, not whether the event is all-day). -/
def computeDaysLong (newEvent : CalendarEvent) : Int :=
  let daysLong := diffDays newEvent.endDateTime newEvent.startDateTime + 1
  if hourOf newEvent.endDateTime = 0 ∧ minutesOf newEvent.endDateTime = 0 then
    daysLong - 1
  else daysLong

/-- The body of the reduce in `processEvents` (lines 124-192) for one raw
event: attach `originCalendar` (the JS code mutates the raw record in
place; the post-state of the caller's array is modelled separately by
`processEventsRawPost`), build the `CalendarEvent`, run the filter chain
(the `hidePastEvents` check appears twice in the source, mirrored here),
and either expand a multi-day event into per-day occurrences clipped to
the display window or push the event unchanged. -/
def processEventsStep (config : Config) (now : Int)
    (regexTest : String → String → Bool)
    (events : List CalendarEvent) (caldavEvent0 : RawEvent) : List CalendarEvent :=
  let caldavEvent :=
    { caldavEvent0 with originCalendar := resolveOriginCalendar config caldavEvent0 }
  let newEvent : CalendarEvent := ⟨caldavEvent⟩
  let today := startOfDay now
  if config.hidePastEvents = true ∧ newEvent.endDateTime < now then events
  else if config.startFromToday = true ∧ newEvent.endDateTime < today then events
  else if config.hidePastEvents = true ∧ newEvent.endDateTime < now then events
  else if config.ignoreEventsExpression ≠ "" ∧ truthyS newEvent.title = true ∧
      regexTest config.ignoreEventsExpression (newEvent.title.getD "") = true then events
  else if config.ignoreEventsByLocationExpression ≠ "" ∧ truthyS newEvent.location = true ∧
      regexTest config.ignoreEventsByLocationExpression (newEvent.location.getD "") = true then
    events
  else if config.showMultiDay = true ∧ newEvent.isMultiDay = true then
    let endDate := today + minutesPerDay * config.numberOfDays
    let daysLong := computeDaysLong newEvent
    let partialEvents := (List.range daysLong.toNat).filterMap (fun i =>
      let copiedEvent :=
        { caldavEvent with addDays := some (i : Int), daysLong := some daysLong }
      let partialEvent : CalendarEvent := ⟨copiedEvent⟩
      if partialEvent.startDateTime < endDate then some partialEvent else none)
    events ++ partialEvents
  else events ++ [newEvent]

/-- One insertion step of the final sort.  The source sorts with
`(a, b) => a.startDateTime.isBefore(b.startDateTime) ? -1 : 1`, a
comparator that returns 1 (never 0) on equal starts; ECMAScript leaves the
order produced by such an inconsistent comparator implementation-defined,
so the sort is modelled as a stable insertion (the behaviour of V8's
binary-insertion/TimSort with this comparator).  No theorem in this file
depends on more than `jsSort` being a permutation. -/
def sortInsert (x : CalendarEvent) : List CalendarEvent → List CalendarEvent
  | [] => [x]
  | y :: ys =>
    if x.startDateTime < y.startDateTime then x :: y :: ys
    else y :: sortInsert x ys

/-- The final `newEvents.sort(...)` of `processEvents` (line 195),
modelled as repeated stable insertion. -/
def jsSort (l : List CalendarEvent) : List CalendarEvent :=
  l.foldl (fun acc x => sortInsert x acc) []

/-- `processEvents(allEvents, config)` (lines 112-197): deduplicate, run
each unique raw event through the filter/expansion step, and sort.  The
ambient `moment()` clock is threaded explicitly as `now`, and the regex
engine as `regexTest`. -/
def processEvents (allEvents : List RawEvent) (config : Config) (now : Int)
    (regexTest : String → String → Bool) : List CalendarEvent :=
  jsSort ((uniqueEvents allEvents).foldl (processEventsStep config now regexTest) [])

/-- Whether the raw event sitting at `index` survives the uniqueness
filter (the same condition `uniqueEventsGo` tests). -/
def keptIdx (allEvents : List RawEvent) (index : Nat) (event : RawEvent) : Bool :=
  jsFindIndex (fun e => dedupProbe event e) allEvents == some index

/-- Walk of the caller's raw-event array recording the in-place writes of
line 125 (`caldavEvent.originCalendar = config.entities.find(...)`): every
record that survives the uniqueness filter — exactly the records the
reduce iterates over — gets its `originCalendar` field overwritten; the
discarded duplicates are untouched. -/
def rawPostGo (config : Config) (allEvents : List RawEvent) :
    List RawEvent → Nat → List RawEvent
  | [], _ => []
  | e :: rest, index =>
    (if keptIdx allEvents index e then
      { e with originCalendar := resolveOriginCalendar config e }
    else e) :: rawPostGo config allEvents rest (index + 1)

/-- The post-state of the caller-supplied raw event list after
`processEvents` returns: JS objects are passed by reference, so the
assignment on line 125 is visible to the caller through the input array. -/
def processEventsRawPost (config : Config) (allEvents : List RawEvent) : List RawEvent :=
  rawPostGo config allEvents allEvents 0

/-! ## `src/defaults.js` -/

/-- The shape of the default-configuration table exported by
`src/defaults.js`. -/
structure Defaults where
  title : String
  numberOfDays : Int
  timeFormat : String
  dateTopFormat : String
  dateBottomFormat : String
  hideTime : Bool
  progressBar : Bool
  showLocation : Bool
  showLocationIcon : Bool
  startFromToday : Bool
  hidePastEvents : Bool
  showMultiDay : Bool
  eventsLimit : Int
  showEventOrigin : Bool
  hideHeader : Bool
  highlightToday : Bool
  ignoreEventsExpression : String
  ignoreEventsByLocationExpression : String
deriving DecidableEq, Repr

/-- The default export of `src/defaults.js`, field for field. -/
def defaults : Defaults where
  title := "Calendar"
  numberOfDays := 7
  timeFormat := "HH:mma"
  dateTopFormat := "DD"
  dateBottomFormat := "ddd"
  hideTime := false
  progressBar := false
  showLocation := false
  showLocationIcon := true
  startFromToday := false
  hidePastEvents := false
  showMultiDay := false
  eventsLimit := 99
  showEventOrigin := false
  hideHeader := false
  highlightToday := false
  ignoreEventsExpression := ""
  ignoreEventsByLocationExpression := ""

/-- Where the JS `findIndex` lands on a decomposed array: it returns the
slot right after a prefix exactly when nothing in the prefix satisfies the
predicate and the element in that slot does. -/
theorem jsFindIndex_append_cons {α : Type} (p : α → Bool) (pre : List α) (e : α)
    (rest : List α) :
    jsFindIndex p (pre ++ e :: rest) = some pre.length ↔
      (∀ x ∈ pre, p x = false) ∧ p e = true := by
  induction pre with
  | nil =>
    constructor
    · intro h0
      refine ⟨by simp, ?_⟩
      by_contra hpe
      have hpe2 : p e = false := by simpa using hpe
      simp only [List.nil_append, jsFindIndex, hpe2, Bool.false_eq_true, if_false,
        List.length_nil] at h0
      rcases Option.map_eq_some'.mp h0 with ⟨k, -, hk⟩
      omega
    · rintro ⟨-, he⟩
      simp [jsFindIndex, he]
  | cons x pre ih =>
    simp only [List.cons_append, jsFindIndex, List.length_cons]
    cases h : p x with
    | true =>
      constructor
      · intro h0
        split at h0 <;> simp_all
      · rintro ⟨hall, -⟩
        exact absurd h (by simp [hall x (by simp)])
    | false =>
      rw [if_neg (by simp [h])]
      constructor
      · intro hmap
        rcases Option.map_eq_some'.mp hmap with ⟨k, hk, hk1⟩
        have hkpre : k = pre.length := by omega
        subst hkpre
        rcases ih.mp hk with ⟨hall, he⟩
        refine ⟨?_, he⟩
        intro y hy
        rcases List.mem_cons.mp hy with rfl | hy
        · exact h
        · exact hall y hy
      · rintro ⟨hall, he⟩
        have : jsFindIndex p (pre ++ e :: rest) = some pre.length :=
          ih.mpr ⟨fun y hy => hall y (List.mem_cons_of_mem _ hy), he⟩
        simp [this]

/-- Unfolding of `dedupKeep` into its two conjuncts. -/
theorem dedupKeep_iff (prior : List RawEvent) (event : RawEvent) :
    dedupKeep prior event = true ↔
      dedupProbe event event = true ∧ ∀ x ∈ prior, dedupProbe event x = false := by
  simp [dedupKeep, List.all_eq_true]

/-- Bridge between the index-based uniqueness filter and the
prefix-passing recursion, generalized over the already-scanned prefix. -/
theorem uniqueEventsGo_eq_dedupGo (suf : List RawEvent) :
    ∀ pre : List RawEvent,
      uniqueEventsGo (pre ++ suf) suf pre.length = dedupGo pre suf := by
  induction suf with
  | nil => intro pre; rfl
  | cons event rest ih =>
    intro pre
    have hcond : (jsFindIndex (fun e => dedupProbe event e) (pre ++ event :: rest)
        == some pre.length) = dedupKeep pre event := by
      cases hk : dedupKeep pre event with
      | true =>
        rw [beq_iff_eq]
        rcases (dedupKeep_iff pre event).mp hk with ⟨h1, h2⟩
        exact (jsFindIndex_append_cons _ pre event rest).mpr ⟨h2, h1⟩
      | false =>
        rw [beq_eq_false_iff_ne]
        intro hfind
        rcases (jsFindIndex_append_cons _ pre event rest).mp hfind with ⟨hall, hself⟩
        rw [(dedupKeep_iff pre event).mpr ⟨hself, hall⟩] at hk
        exact Bool.true_eq_false.mp hk
    have h3 : uniqueEventsGo (pre ++ event :: rest) rest (pre.length + 1) =
        dedupGo (pre ++ [event]) rest := by
      have := ih (pre ++ [event])
      simpa using this
    simp only [uniqueEventsGo, dedupGo, hcond, h3]

/-- The uniqueness filter is the prefix-passing dedup recursion started
from the empty prefix. -/
theorem uniqueEvents_eq_dedupGo (l : List RawEvent) :
    uniqueEvents l = dedupGo [] l := by
  simpa using uniqueEventsGo_eq_dedupGo l []

/-- Every event kept by the dedup recursion comes from the input list. -/
theorem dedupGo_subset :
    ∀ (l prior : List RawEvent) (e : RawEvent), e ∈ dedupGo prior l → e ∈ l := by
  intro l
  induction l with
  | nil => intro prior e h; simp [dedupGo] at h
  | cons event rest ih =>
    intro prior e h
    simp only [dedupGo] at h
    split at h
    · rcases List.mem_cons.mp h with rfl | h
      · exact List.mem_cons_self _ _
      · exact List.mem_cons_of_mem _ (ih _ _ h)
    · exact List.mem_cons_of_mem _ (ih _ _ h)

/-- The dedup recursion never lengthens the list. -/
theorem dedupGo_length :
    ∀ (l prior : List RawEvent), (dedupGo prior l).length ≤ l.length := by
  intro l
  induction l with
  | nil => intro prior; simp [dedupGo]
  | cons event rest ih =>
    intro prior
    simp only [dedupGo]
    split
    · simpa using ih (prior ++ [event])
    · exact le_trans (ih (prior ++ [event])) (by simp)

/-- Every kept event matches its own probe (its `id || uid` strictly
equals its `uid || id`). -/
theorem mem_dedupGo_self :
    ∀ (l prior : List RawEvent) (e : RawEvent),
      e ∈ dedupGo prior l → dedupProbe e e = true := by
  intro l
  induction l with
  | nil => intro prior e h; simp [dedupGo] at h
  | cons event rest ih =>
    intro prior e h
    simp only [dedupGo] at h
    split at h
    · next hk =>
      rcases List.mem_cons.mp h with rfl | h
      · exact ((dedupKeep_iff _ _).mp hk).1
      · exact ih _ _ h
    · exact ih _ _ h

/-- No kept event matches any element of the prefix it was scanned
against. -/
theorem mem_dedupGo_prior :
    ∀ (l prior : List RawEvent) (e : RawEvent),
      e ∈ dedupGo prior l → ∀ x ∈ prior, dedupProbe e x = false := by
  intro l
  induction l with
  | nil => intro prior e h; simp [dedupGo] at h
  | cons event rest ih =>
    intro prior e h x hx
    simp only [dedupGo] at h
    split at h
    · next hk =>
      rcases List.mem_cons.mp h with rfl | h
      · exact ((dedupKeep_iff _ _).mp hk).2 x hx
      · exact ih _ _ h x (by simp [hx])
    · exact ih _ _ h x (by simp [hx])

/-- A later kept event never probe-matches an earlier kept event. -/
theorem dedupGo_pairwise :
    ∀ (l prior : List RawEvent),
      (dedupGo prior l).Pairwise (fun a b => dedupProbe b a = false) := by
  intro l
  induction l with
  | nil => intro prior; simp [dedupGo]
  | cons event rest ih =>
    intro prior
    simp only [dedupGo]
    split
    · refine List.Pairwise.cons ?_ (ih (prior ++ [event]))
      intro b hb
      exact mem_dedupGo_prior _ _ _ hb event (by simp)
    · exact ih (prior ++ [event])

/-- Re-running the dedup recursion on its own output changes nothing,
provided the new prefix clashes with none of the kept events. -/
theorem dedupGo_idem :
    ∀ (l prior prior2 : List RawEvent),
      (∀ e ∈ dedupGo prior l, ∀ x ∈ prior2, dedupProbe e x = false) →
      dedupGo prior2 (dedupGo prior l) = dedupGo prior l := by
  intro l
  induction l with
  | nil => intro prior prior2 _; simp [dedupGo]
  | cons event rest ih =>
    intro prior prior2 h
    simp only [dedupGo]
    split
    · next hk =>
      have hmem : event ∈ dedupGo prior (event :: rest) := by
        simp [dedupGo, hk]
      have hkeep2 : dedupKeep prior2 event = true :=
        (dedupKeep_iff _ _).mpr
          ⟨((dedupKeep_iff _ _).mp hk).1, h event hmem⟩
      simp only [dedupGo, hkeep2, if_pos]
      congr 1
      refine ih (prior ++ [event]) (prior2 ++ [event]) ?_
      intro e he x hx
      rcases List.mem_append.mp hx with hx | hx
      · refine h e ?_ x hx
        simp [dedupGo, hk, he]
      · have hxe : x = event := List.mem_singleton.mp hx
        rw [hxe]
        exact mem_dedupGo_prior _ _ _ he event (by simp)
    · next hk =>
      refine ih (prior ++ [event]) prior2 ?_
      intro e he x hx
      refine h e ?_ x hx
      simpa [dedupGo, hk] using he

/-- C1: the uniqueness filter of `processEvents` drops a lone raw event
that carries both an `id` and a different `uid`: its `findIndex` probe
compares `e.id || e.uid` of the candidates against `event.uid || event.id`
of the event under test, so the event never matches even itself and
`index === findIndex` fails.  The claim says an event with no earlier
duplicate is always kept. -/
theorem dedup_drops_lone_two_key_event :
    uniqueEvents [{ id := some "a", uid := some "b", entity := Entity.str "cal" }] = [] := by
  decide

/-- C8: the uniqueness filter is idempotent, never lengthens its input,
and no two kept events share a deduplication key (`uid` if present, else
`id`, with JavaScript truthiness). -/
theorem dedup_idempotent_bounded_unique (allEvents : List RawEvent) :
    uniqueEvents (uniqueEvents allEvents) = uniqueEvents allEvents ∧
    (uniqueEvents allEvents).length ≤ allEvents.length ∧
    (uniqueEvents allEvents).Pairwise
      (fun a b => jsOr a.uid a.id ≠ jsOr b.uid b.id) := by
  refine ⟨?_, ?_, ?_⟩
  · rw [uniqueEvents_eq_dedupGo, uniqueEvents_eq_dedupGo]
    exact dedupGo_idem _ [] [] (by simp)
  · rw [uniqueEvents_eq_dedupGo]
    exact dedupGo_length _ _
  · rw [uniqueEvents_eq_dedupGo]
    refine List.Pairwise.imp_of_mem ?_ (dedupGo_pairwise allEvents [])
    intro a b ha _ hfalse heq
    have hself := mem_dedupGo_self _ _ _ ha
    rw [dedupProbe] at hfalse hself
    rw [← heq, hself] at hfalse
    exact Bool.true_eq_false.mp hfalse

/-- Witness for C8 at a concrete input: two caldav events sharing `uid`
"u1" from different sources, followed by a google event with `id` "g1". -/
theorem dedup_idempotent_bounded_unique_witness :
    uniqueEvents (uniqueEvents
        [{ uid := some "u1", entity := Entity.str "cal.a" },
         { uid := some "u1", entity := Entity.str "cal.b" },
         { id := some "g1", entity := Entity.str "cal.c" }]) =
      uniqueEvents
        [{ uid := some "u1", entity := Entity.str "cal.a" },
         { uid := some "u1", entity := Entity.str "cal.b" },
         { id := some "g1", entity := Entity.str "cal.c" }] ∧
    (uniqueEvents
        [{ uid := some "u1", entity := Entity.str "cal.a" },
         { uid := some "u1", entity := Entity.str "cal.b" },
         { id := some "g1", entity := Entity.str "cal.c" }]).length ≤ 3 ∧
    (uniqueEvents
        [{ uid := some "u1", entity := Entity.str "cal.a" },
         { uid := some "u1", entity := Entity.str "cal.b" },
         { id := some "g1", entity := Entity.str "cal.c" }]).Pairwise
      (fun a b => jsOr a.uid a.id ≠ jsOr b.uid b.id) :=
  dedup_idempotent_bounded_unique
    [{ uid := some "u1", entity := Entity.str "cal.a" },
     { uid := some "u1", entity := Entity.str "cal.b" },
     { id := some "g1", entity := Entity.str "cal.c" }]

/-- `cumLen` over a cons. -/
theorem cumLen_cons (g : DayGroup) (rest : List DayGroup) (k : Nat) :
    cumLen (g :: rest) (k + 1) = (g.events.length : Int) + cumLen rest k := by
  simp [cumLen, List.take_succ_cons]

/-- Once `hasMaxedOutEvents` is set, every remaining day is dropped. -/
theorem limitGo_maxed (limit acc : Int) :
    ∀ gs : List DayGroup, limitGo limit acc true gs = [] := by
  intro gs
  induction gs with
  | nil => rfl
  | cons g rest ih => simpa [limitGo] using ih

/-- Behaviour of the limit cutoff, generalized over the running count:
the output is a prefix of the input; every kept day except possibly the
last keeps the cumulative count within the limit; and a day is dropped
only when the cumulative count of the kept prefix already exceeds the
limit. -/
theorem limitGo_spec (limit : Int) :
    ∀ (gs : List DayGroup) (acc : Int),
      limitGo limit acc false gs = gs.take (limitGo limit acc false gs).length ∧
      (∀ k : Nat, k + 1 < (limitGo limit acc false gs).length →
        acc + cumLen gs (k + 1) ≤ limit) ∧
      ((limitGo limit acc false gs).length < gs.length →
        limit < acc + cumLen gs (limitGo limit acc false gs).length) := by
  intro gs
  induction gs with
  | nil =>
    intro acc
    refine ⟨rfl, ?_, ?_⟩
    · intro k hk; simp [limitGo] at hk
    · intro h; simp [limitGo] at h
  | cons group rest ih =>
    intro acc
    by_cases hmax : limit < acc + group.events.length
    · have hout : limitGo limit acc false (group :: rest) = [group] := by
        simp [limitGo, hmax, limitGo_maxed]
      refine ⟨by simp [hout], ?_, ?_⟩
      · intro k hk; rw [hout] at hk; simp at hk
      · intro _
        rw [hout]
        simpa [cumLen_cons, cumLen] using hmax
    · have hout : limitGo limit acc false (group :: rest) =
          group :: limitGo limit (acc + group.events.length) false rest := by
        simp [limitGo, hmax]
      rcases ih (acc + group.events.length) with ⟨ha, hb, hc⟩
      refine ⟨?_, ?_, ?_⟩
      · rw [hout, List.length_cons, List.take_succ_cons]
        exact congrArg _ ha
      · intro k hk
        rw [hout, List.length_cons] at hk
        cases k with
        | zero =>
          simpa [cumLen_cons, cumLen] using le_of_not_lt hmax
        | succ k =>
          rw [cumLen_cons]
          have := hb k (by omega)
          omega
      · intro hlen
        rw [hout, List.length_cons] at hlen ⊢
        rw [List.length_cons] at hlen
        have := hc (by omega)
        rw [cumLen_cons]
        omega

/-- C3: the `eventsLimit` cutoff in `groupEventsByDay` is day-atomic: the
result is a prefix of the day groups; every kept day other than the last
keeps the running event count at or below the limit (so no day preceded
by an overflowing day survives); and a day is dropped only when the kept
prefix already exceeds the limit, so the first overflowing day is itself
kept in full. -/
theorem groupEventsByDay_dayAtomic (events : List CalendarEvent) (config : Config) :
    groupEventsByDay events config =
      (groupByDay events).take (groupEventsByDay events config).length ∧
    (∀ k : Nat, k + 1 < (groupEventsByDay events config).length →
      cumLen (groupByDay events) (k + 1) ≤ config.eventsLimit) ∧
    ((groupEventsByDay events config).length < (groupByDay events).length →
      config.eventsLimit <
        cumLen (groupByDay events) (groupEventsByDay events config).length) := by
  have h := limitGo_spec config.eventsLimit (groupByDay events) 0
  simpa [groupEventsByDay] using h

/-- Witness for C3: with `eventsLimit = 0` and one event on each of two
days, the first day is kept as a full prefix and the second day's drop is
justified by the overflow of the kept prefix. -/
theorem groupEventsByDay_dayAtomic_witness :
    (groupEventsByDay
        [⟨{ id := some "a", start := 100, endTime := 160, entity := .str "cal" }⟩,
         ⟨{ id := some "b", start := 1500, endTime := 1560, entity := .str "cal" }⟩]
        { entities := [.str "cal"], eventsLimit := 0 } =
      (groupByDay
        [⟨{ id := some "a", start := 100, endTime := 160, entity := .str "cal" }⟩,
         ⟨{ id := some "b", start := 1500, endTime := 1560, entity := .str "cal" }⟩]).take
        (groupEventsByDay
          [⟨{ id := some "a", start := 100, endTime := 160, entity := .str "cal" }⟩,
           ⟨{ id := some "b", start := 1500, endTime := 1560, entity := .str "cal" }⟩]
          { entities := [.str "cal"], eventsLimit := 0 }).length) ∧
    (0 : Int) <
      cumLen
        (groupByDay
          [⟨{ id := some "a", start := 100, endTime := 160, entity := .str "cal" }⟩,
           ⟨{ id := some "b", start := 1500, endTime := 1560, entity := .str "cal" }⟩])
        (groupEventsByDay
          [⟨{ id := some "a", start := 100, endTime := 160, entity := .str "cal" }⟩,
           ⟨{ id := some "b", start := 1500, endTime := 1560, entity := .str "cal" }⟩]
          { entities := [.str "cal"], eventsLimit := 0 }).length :=
  ⟨(groupEventsByDay_dayAtomic
      [⟨{ id := some "a", start := 100, endTime := 160, entity := .str "cal" }⟩,
       ⟨{ id := some "b", start := 1500, endTime := 1560, entity := .str "cal" }⟩]
      { entities := [.str "cal"], eventsLimit := 0 }).1,
   (groupEventsByDay_dayAtomic
      [⟨{ id := some "a", start := 100, endTime := 160, entity := .str "cal" }⟩,
       ⟨{ id := some "b", start := 1500, endTime := 1560, entity := .str "cal" }⟩]
      { entities := [.str "cal"], eventsLimit := 0 }).2.2 (by decide)⟩

/-- C2 counterexample: config `{numberOfDays := 3, eventsLimit := 2}`,
two events on day 1 (starts 540 and 600) and one on day 2 (start 1980):
the grouped output is not just day 1's group — day 2 survives, because
day 1 only reaches the limit (2 < 2 is false) and the flag flips only
after day 2 has been emitted. -/
theorem groupEventsByDay_scenario_counterexample :
    groupEventsByDay
        [⟨{ id := some "1", start := 540, endTime := 600, entity := .str "cal" }⟩,
         ⟨{ id := some "2", start := 600, endTime := 660, entity := .str "cal" }⟩,
         ⟨{ id := some "3", start := 1980, endTime := 2040, entity := .str "cal" }⟩]
        { entities := [.str "cal"], numberOfDays := 3, eventsLimit := 2 } ≠
      [{ day := 0,
         events :=
           [⟨{ id := some "1", start := 540, endTime := 600, entity := .str "cal" }⟩,
            ⟨{ id := some "2", start := 600, endTime := 660, entity := .str "cal" }⟩] }] := by
  decide

/-- C2 amended: in that scenario the output keeps day 1's two events and
also day 2's single event; a hypothetical day 3 would be dropped, but
day 2 itself is emitted before the maxed-out flag is consulted again. -/
theorem groupEventsByDay_scenario_amended :
    groupEventsByDay
        [⟨{ id := some "1", start := 540, endTime := 600, entity := .str "cal" }⟩,
         ⟨{ id := some "2", start := 600, endTime := 660, entity := .str "cal" }⟩,
         ⟨{ id := some "3", start := 1980, endTime := 2040, entity := .str "cal" }⟩]
        { entities := [.str "cal"], numberOfDays := 3, eventsLimit := 2 } =
      [{ day := 0,
         events :=
           [⟨{ id := some "1", start := 540, endTime := 600, entity := .str "cal" }⟩,
            ⟨{ id := some "2", start := 600, endTime := 660, entity := .str "cal" }⟩] },
       { day := 1,
         events :=
           [⟨{ id := some "3", start := 1980, endTime := 2040, entity := .str "cal" }⟩] }] := by
  decide

/-- Membership through one insertion step of the sort model. -/
theorem mem_sortInsert (x a : CalendarEvent) :
    ∀ l : List CalendarEvent, a ∈ sortInsert x l ↔ a = x ∨ a ∈ l := by
  intro l
  induction l with
  | nil => simp [sortInsert]
  | cons y ys ih =>
    simp only [sortInsert]
    split
    · simp
    · simp only [List.mem_cons, ih]
      tauto

/-- One insertion step grows the list by exactly one element. -/
theorem length_sortInsert (x : CalendarEvent) :
    ∀ l : List CalendarEvent, (sortInsert x l).length = l.length + 1 := by
  intro l
  induction l with
  | nil => rfl
  | cons y ys ih =>
    simp only [sortInsert]
    split
    · simp
    · simp [ih]

/-- Membership through the insertion fold of the sort model. -/
theorem mem_foldl_sortInsert (a : CalendarEvent) :
    ∀ (l acc : List CalendarEvent),
      (a ∈ l.foldl (fun acc x => sortInsert x acc) acc ↔ a ∈ acc ∨ a ∈ l) := by
  intro l
  induction l with
  | nil => intro acc; simp
  | cons x xs ih =>
    intro acc
    rw [List.foldl_cons, ih, mem_sortInsert]
    simp only [List.mem_cons]
    tauto

/-- The sort model permutes membership. -/
theorem mem_jsSort (a : CalendarEvent) (l : List CalendarEvent) :
    a ∈ jsSort l ↔ a ∈ l := by
  rw [jsSort, mem_foldl_sortInsert]
  simp

/-- Length through the insertion fold of the sort model. -/
theorem length_foldl_sortInsert :
    ∀ (l acc : List CalendarEvent),
      (l.foldl (fun acc x => sortInsert x acc) acc).length = acc.length + l.length := by
  intro l
  induction l with
  | nil => intro acc; simp
  | cons x xs ih =>
    intro acc
    rw [List.foldl_cons, ih, length_sortInsert, List.length_cons]
    omega

/-- The sort model preserves length. -/
theorem length_jsSort (l : List CalendarEvent) : (jsSort l).length = l.length := by
  rw [jsSort, length_foldl_sortInsert]
  simp

/-- A `filterMap` whose guard accepts every element is a `map`. -/
theorem filterMap_ite_eq_map {α β : Type} (p : α → Prop) [DecidablePred p] (f : α → β) :
    ∀ l : List α, (∀ a ∈ l, p a) →
      (l.filterMap fun a => if p a then some (f a) else none) = l.map f := by
  intro l
  induction l with
  | nil => intro _; rfl
  | cons a l ih =>
    intro h
    rw [List.filterMap_cons, List.map_cons, if_pos (h a (by simp)),
      ih (fun b hb => h b (by simp [hb]))]

/-- The uniqueness filter only keeps events from its input. -/
theorem mem_uniqueEvents_subset (l : List RawEvent) (e : RawEvent) :
    e ∈ uniqueEvents l → e ∈ l := by
  rw [uniqueEvents_eq_dedupGo]
  exact dedupGo_subset l [] e

/-- Every event emitted by the reduce of `processEvents` satisfies: it is
a pass-through event with no `addDays` stamp, or a windowed occurrence
starting before `today + numberOfDays` — provided the raw inputs carry no
`addDays` of their own and the accumulator already satisfies it. -/
theorem foldl_processEventsStep_bound (config : Config) (now : Int)
    (regexTest : String → String → Bool) :
    ∀ (l : List RawEvent) (acc : List CalendarEvent),
      (∀ e ∈ acc, e.rawEvent.addDays = none ∨
        e.startDateTime < startOfDay now + minutesPerDay * config.numberOfDays) →
      (∀ r ∈ l, r.addDays = none) →
      ∀ e ∈ l.foldl (processEventsStep config now regexTest) acc,
        e.rawEvent.addDays = none ∨
          e.startDateTime < startOfDay now + minutesPerDay * config.numberOfDays := by
  intro l
  induction l with
  | nil => intro acc hacc _ e he; exact hacc e he
  | cons r l ih =>
    intro acc hacc hl e he
    rw [List.foldl_cons] at he
    refine ih (processEventsStep config now regexTest acc r) ?_
      (fun x hx => hl x (by simp [hx])) e he
    intro f hf
    simp only [processEventsStep] at hf
    -- `split_ifs` merges the duplicated `hidePastEvents` test, leaving
    -- four filter branches, the expansion branch and the pass-through.
    split_ifs at hf
    · exact hacc f hf
    · exact hacc f hf
    · exact hacc f hf
    · exact hacc f hf
    · rcases List.mem_append.mp hf with hf | hf
      · exact hacc f hf
      · rcases List.mem_filterMap.mp hf with ⟨i, -, hi⟩
        split_ifs at hi with hlt
        rcases Option.some.inj hi with rfl
        exact Or.inr hlt
    · rcases List.mem_append.mp hf with hf | hf
      · exact hacc f hf
      · rcases List.mem_singleton.mp hf with rfl
        exact Or.inl (hl r (by simp))

/-- C7: with `showMultiDay` enabled and raw inputs carrying no `addDays`
stamp of their own, every synthetic occurrence (an output event stamped
with `addDays`) returned by `processEvents` starts strictly before
`today + numberOfDays` — occurrences at or past that bound were
discarded by the expansion's window check. -/
theorem processEvents_expansionWindowBound (allEvents : List RawEvent)
    (config : Config) (now : Int) (regexTest : String → String → Bool)
    (_hshow : config.showMultiDay = true)
    (hfresh : ∀ r ∈ allEvents, r.addDays = none) :
    ∀ e ∈ processEvents allEvents config now regexTest,
      e.rawEvent.addDays.isSome = true →
      e.startDateTime < startOfDay now + minutesPerDay * config.numberOfDays := by
  intro e he hsynth
  rw [processEvents, mem_jsSort] at he
  rcases foldl_processEventsStep_bound config now regexTest
      (uniqueEvents allEvents) [] (by simp)
      (fun r hr => hfresh r (mem_uniqueEvents_subset allEvents r hr)) e he with
    hnone | hbound
  · rw [hnone] at hsynth
    simp at hsynth
  · exact hbound

/-- Witness for C7: a three-day all-day event with `numberOfDays = 2`
produces the occurrence for day 1, and its start respects the window
bound (the day-2 occurrence is discarded entirely). -/
theorem processEvents_expansionWindowBound_witness :
    ({ entities := [.str "cal"], showMultiDay := true, numberOfDays := 2 } : Config).showMultiDay
        = true ∧
    CalendarEvent.startDateTime
        ⟨{ uid := some "w", start := 0, endTime := 4320, allDay := true, entity := .str "cal",
           originCalendar := some (.str "cal"), addDays := some 1, daysLong := some 3 }⟩ <
      startOfDay 0 + minutesPerDay *
        ({ entities := [.str "cal"], showMultiDay := true, numberOfDays := 2 } : Config).numberOfDays :=
  ⟨rfl,
    processEvents_expansionWindowBound
      [{ uid := some "w", start := 0, endTime := 4320, allDay := true, entity := .str "cal" }]
      { entities := [.str "cal"], showMultiDay := true, numberOfDays := 2 } 0 (fun _ _ => false)
      rfl (by decide)
      ⟨{ uid := some "w", start := 0, endTime := 4320, allDay := true, entity := .str "cal",
         originCalendar := some (.str "cal"), addDays := some 1, daysLong := some 3 }⟩
      (by decide) (by decide)⟩

/-- Evaluation of one `processEventsStep` on a multi-day event when every
filter is disabled and every occurrence fits the display window: the step
appends one occurrence per `i < daysLong`, each stamped with `addDays = i`
and the computed `daysLong`. -/
theorem processEventsStep_expand (config : Config) (now : Int)
    (regexTest : String → String → Bool) (acc : List CalendarEvent) (raw : RawEvent)
    (hhide : config.hidePastEvents = false)
    (hstart : config.startFromToday = false)
    (hp1 : config.ignoreEventsExpression = "")
    (hp2 : config.ignoreEventsByLocationExpression = "")
    (hshow : config.showMultiDay = true)
    (hmulti : CalendarEvent.isMultiDay ⟨raw⟩ = true)
    (hwin : ∀ i : Nat, i < (computeDaysLong ⟨raw⟩).toNat →
      raw.start + minutesPerDay * (i : Int) <
        startOfDay now + minutesPerDay * config.numberOfDays) :
    processEventsStep config now regexTest acc raw =
      acc ++ (List.range (computeDaysLong ⟨raw⟩).toNat).map (fun (i : Nat) =>
        (⟨{ raw with
            originCalendar := resolveOriginCalendar config raw,
            addDays := some (i : Int),
            daysLong := some (computeDaysLong ⟨raw⟩) }⟩ : CalendarEvent)) := by
  simp only [processEventsStep]
  rw [if_neg (by simp [hhide]), if_neg (by simp [hstart]), if_neg (by simp [hhide]),
    if_neg (by simp [hp1]), if_neg (by simp [hp2]), if_pos ⟨hshow, hmulti⟩]
  congr 1
  apply filterMap_ite_eq_map
  intro i hi
  have := hwin i (List.mem_range.mp hi)
  simpa [CalendarEvent.startDateTime] using this

/-- C6 amended: with `showMultiDay` on, every filter disabled, a window
wide enough for the whole span and a self-consistent dedup key, a
multi-day event expands into exactly `computeDaysLong` occurrences, each
stamped with that `daysLong`; and `computeDaysLong` is the truncated
whole-day difference plus one, decremented exactly when the end instant's
hour and minutes are both zero — whether or not the event is all-day. -/
theorem processEvents_daysLong_amended (raw : RawEvent) (config : Config) (now : Int)
    (regexTest : String → String → Bool)
    (hhide : config.hidePastEvents = false)
    (hstart : config.startFromToday = false)
    (hp1 : config.ignoreEventsExpression = "")
    (hp2 : config.ignoreEventsByLocationExpression = "")
    (hshow : config.showMultiDay = true)
    (hself : dedupProbe raw raw = true)
    (hmulti : CalendarEvent.isMultiDay ⟨raw⟩ = true)
    (hwin : ∀ i : Nat, i < (computeDaysLong ⟨raw⟩).toNat →
      raw.start + minutesPerDay * (i : Int) <
        startOfDay now + minutesPerDay * config.numberOfDays) :
    (processEvents [raw] config now regexTest).length = (computeDaysLong ⟨raw⟩).toNat ∧
    (∀ e ∈ processEvents [raw] config now regexTest,
      e.rawEvent.daysLong = some (computeDaysLong ⟨raw⟩)) ∧
    (hourOf (CalendarEvent.endDateTime ⟨raw⟩) = 0 ∧
        minutesOf (CalendarEvent.endDateTime ⟨raw⟩) = 0 →
      computeDaysLong ⟨raw⟩ =
        diffDays (CalendarEvent.endDateTime ⟨raw⟩) (CalendarEvent.startDateTime ⟨raw⟩) + 1
          - 1) ∧
    (¬(hourOf (CalendarEvent.endDateTime ⟨raw⟩) = 0 ∧
        minutesOf (CalendarEvent.endDateTime ⟨raw⟩) = 0) →
      computeDaysLong ⟨raw⟩ =
        diffDays (CalendarEvent.endDateTime ⟨raw⟩) (CalendarEvent.startDateTime ⟨raw⟩) + 1) := by
  have huniq : uniqueEvents [raw] = [raw] := by
    simp [uniqueEvents, uniqueEventsGo, jsFindIndex, hself]
  have hpipe : processEvents [raw] config now regexTest =
      jsSort ((List.range (computeDaysLong ⟨raw⟩).toNat).map (fun (i : Nat) =>
        (⟨{ raw with
            originCalendar := resolveOriginCalendar config raw,
            addDays := some (i : Int),
            daysLong := some (computeDaysLong ⟨raw⟩) }⟩ : CalendarEvent))) := by
    rw [processEvents, huniq, List.foldl_cons, List.foldl_nil,
      processEventsStep_expand config now regexTest [] raw hhide hstart hp1 hp2 hshow
        hmulti hwin, List.nil_append]
  refine ⟨?_, ?_, ?_, ?_⟩
  · rw [hpipe, length_jsSort, List.length_map, List.length_range]
  · intro e he
    rw [hpipe, mem_jsSort] at he
    rcases List.mem_map.mp he with ⟨i, -, rfl⟩
    rfl
  · intro h
    simp [computeDaysLong, h]
  · intro h
    simp [computeDaysLong, h]

/-- Witness for C6 (amended): a three-day pure all-day event (end at the
midnight closing day 3) with a five-day window expands into exactly
three occurrences. -/
theorem processEvents_daysLong_amended_witness :
    (processEvents
        [{ uid := some "w", start := 0, endTime := 4320, allDay := true, entity := .str "cal" }]
        { entities := [.str "cal"], showMultiDay := true, numberOfDays := 5 } 0
        (fun _ _ => false)).length =
      (computeDaysLong
        ⟨{ uid := some "w", start := 0, endTime := 4320, allDay := true,
           entity := .str "cal" }⟩).toNat ∧
    (computeDaysLong
        ⟨{ uid := some "w", start := 0, endTime := 4320, allDay := true,
           entity := .str "cal" }⟩).toNat = 3 :=
  ⟨(processEvents_daysLong_amended
      { uid := some "w", start := 0, endTime := 4320, allDay := true, entity := .str "cal" }
      { entities := [.str "cal"], showMultiDay := true, numberOfDays := 5 } 0
      (fun _ _ => false) rfl rfl rfl rfl rfl (by decide) (by decide) (by decide)).1,
   by decide⟩

/-- C6 counterexample: a timed (not all-day) event from 18:00 on day 0 to
midnight ending day 2 is multi-day with a whole-day difference of 1, so
the claim's undecremented formula demands `daysLong = 2`; but the code
inspects only the end time, sees hour 0 / minutes 0, decrements, and
stamps `daysLong = 1`, producing a single occurrence. -/
theorem daysLong_decrement_counterexample :
    (processEvents
        [{ id := some "m", start := 1080, endTime := 2880, entity := .str "cal" }]
        { entities := [.str "cal"], showMultiDay := true, numberOfDays := 30 } 0
        (fun _ _ => false)).map (fun e => e.rawEvent.daysLong) = [some 1] ∧
    ({ id := some "m", start := 1080, endTime := 2880,
        entity := .str "cal" } : RawEvent).allDay = false ∧
    diffDays 2880 1080 + 1 = 2 ∧ some (1 : Int) ≠ some (2 : Int) := by
  decide

/-- C5: with bare-string entity descriptors the origin lookup
misattributes events: the `find` compares `entity.entity` — `undefined`
on a string — against `caldavEvent.entity.entity` — also `undefined` —
so an event fetched from `calendar.two` is attributed to the first
configured entity, `calendar.one`. -/
theorem processEvents_misattributesOrigin :
    (processEvents
        [{ id := some "e1", start := 100, endTime := 160, entity := .str "calendar.two" }]
        { entities := [.str "calendar.one", .str "calendar.two"] } 0
        (fun _ _ => false)).map (fun e => e.rawEvent.originCalendar) =
      [some (Entity.str "calendar.one")] ∧
    Entity.str "calendar.one" ≠ Entity.str "calendar.two" := by
  decide

/-- C9 counterexample: not every boolean field of the defaults table is
`false` — `showLocationIcon` defaults to `true`. -/
theorem defaults_not_all_booleans_false :
    ¬ (defaults.hideTime = false ∧ defaults.progressBar = false ∧
       defaults.showLocation = false ∧ defaults.showLocationIcon = false ∧
       defaults.startFromToday = false ∧ defaults.hidePastEvents = false ∧
       defaults.showMultiDay = false ∧ defaults.showEventOrigin = false ∧
       defaults.hideHeader = false ∧ defaults.highlightToday = false) := by
  decide

/-- C9 amended: the defaults table supplies `numberOfDays = 7`,
`eventsLimit = 99`, empty strings for both ignore-pattern fields, and
`false` for every boolean field except `showLocationIcon`, which
defaults to `true`. -/
theorem defaults_values :
    defaults.numberOfDays = 7 ∧ defaults.eventsLimit = 99 ∧
    defaults.ignoreEventsExpression = "" ∧
    defaults.ignoreEventsByLocationExpression = "" ∧
    defaults.hideTime = false ∧ defaults.progressBar = false ∧
    defaults.showLocation = false ∧ defaults.showLocationIcon = true ∧
    defaults.startFromToday = false ∧ defaults.hidePastEvents = false ∧
    defaults.showMultiDay = false ∧ defaults.showEventOrigin = false ∧
    defaults.hideHeader = false ∧ defaults.highlightToday = false := by
  decide

/-- Position-wise description of the raw-array post-state walk. -/
theorem rawPostGo_getElem (config : Config) (allEvents : List RawEvent) :
    ∀ (suf : List RawEvent) (k j : Nat),
      (rawPostGo config allEvents suf k)[j]? =
        (suf[j]?).map (fun e =>
          if keptIdx allEvents (k + j) e then
            { e with originCalendar := resolveOriginCalendar config e }
          else e) := by
  intro suf
  induction suf with
  | nil => intro k j; simp [rawPostGo]
  | cons e rest ih =>
    intro k j
    cases j with
    | zero => simp [rawPostGo]
    | succ j =>
      simp only [rawPostGo, List.getElem?_cons_succ]
      rw [ih (k + 1) j]
      have : k + (j + 1) = k + 1 + j := by omega
      rw [this]

/-- C10: `processEvents` mutates its input.  The records the reduce
iterates over — exactly those that survive the uniqueness filter — have
their `originCalendar` field written in place (line 125), so after a run
the caller's raw-event array holds modified records; concretely, a
single-event input no longer equals itself after processing. -/
theorem processEvents_mutatesInput :
    (∀ (config : Config) (allEvents : List RawEvent) (i : Nat) (e : RawEvent),
      allEvents[i]? = some e → keptIdx allEvents i e = true →
      (processEventsRawPost config allEvents)[i]? =
        some { e with originCalendar := resolveOriginCalendar config e }) ∧
    processEventsRawPost
        { entities := [.str "calendar.one", .str "calendar.two"] }
        [{ id := some "e1", start := 100, endTime := 160, entity := .str "calendar.two" }] ≠
      [{ id := some "e1", start := 100, endTime := 160, entity := .str "calendar.two" }] := by
  constructor
  · intro config allEvents i e hget hkept
    rw [processEventsRawPost, rawPostGo_getElem config allEvents allEvents 0 i]
    simp [hget, hkept]
  · decide

/-- Witness for C10: the lone raw event of the concrete run survives
dedup and comes back with its `originCalendar` field overwritten. -/
theorem processEvents_mutatesInput_witness :
    (processEventsRawPost
        { entities := [.str "calendar.one", .str "calendar.two"] }
        [{ id := some "e1", start := 100, endTime := 160,
           entity := .str "calendar.two" }])[0]? =
      some { id := some "e1", start := 100, endTime := 160, entity := .str "calendar.two",
             originCalendar := some (.str "calendar.one") } :=
  processEvents_mutatesInput.1
    { entities := [.str "calendar.one", .str "calendar.two"] }
    [{ id := some "e1", start := 100, endTime := 160, entity := .str "calendar.two" }]
    0 { id := some "e1", start := 100, endTime := 160, entity := .str "calendar.two" }
    (by rfl) (by decide)

end CalendarCard
